import Mathlib

/-!
Shallow embedding of the gocouch CouchDB client library, covering the
bulk-mutation document shaper (`Database.Update`, `Database.bulkDelete`,
`DeleteMany`, `MustDeleteMany` in database.go) and the continuous
event-streaming subsystem (`GetAllChanges`, `GetChangesChan` in database.go;
`GetDBEvent`, `GetDBEventChan` in the server file).

Go `map[string]interface{}` values are modelled as association lists with
overwrite-on-insert semantics; Go's dynamic `interface{}` values are the
inductive `Value`; a Go type assertion `v.(string)` is `assertString`, whose
failure is a panic modelled in the `Except Unit` monad; the deferred
`recover()` blocks of the source are explicit wrapper functions.
-/

namespace Gocouch

/-- A dynamic Go value as stored in a `map[string]interface{}` or a struct
field: a string, a bool, or an integer. -/
inductive Value where
  | str (s : String)
  | boolean (b : Bool)
  | num (n : Int)
  deriving Repr, DecidableEq

/-- A Go `map[string]interface{}` (a document, or an `Options` map), modelled
as an association list whose insert overwrites an existing key in place. -/
abbrev Doc := List (String × Value)

/-- Map lookup: `m[k]`. -/
def mapLookup : Doc → String → Option Value
  | [], _ => none
  | (k1, v) :: rest, k => if k1 = k then some v else mapLookup rest k

/-- Map assignment `m[k] = v`: overwrites the entry for `k` if present,
otherwise appends a fresh entry. -/
def mapInsert : Doc → String → Value → Doc
  | [], k, v => [(k, v)]
  | (k1, v1) :: rest, k, v =>
      if k1 = k then (k, v) :: rest else (k1, v1) :: mapInsert rest k v

/-- Go builtin `delete(m, k)`: removes the entry for `k`, leaving the other
entries in place. -/
def mapDelete : Doc → String → Doc
  | [], _ => []
  | (k1, v1) :: rest, k =>
      if k1 = k then mapDelete rest k else (k1, v1) :: mapDelete rest k

/-- Whether `p` is a prefix of `l`, on character lists. -/
def listPrefix : List Char → List Char → Bool
  | [], _ => true
  | _ :: _, [] => false
  | c :: cs, d :: ds => c = d && listPrefix cs ds

/-- Whether `sub` occurs as a contiguous sublist of `l`. -/
def listInfix (sub : List Char) : List Char → Bool
  | [] => listPrefix sub []
  | d :: ds => listPrefix sub (d :: ds) || listInfix sub ds

/-- Go `strings.Contains(s, sub)`. -/
def goContains (s sub : String) : Bool := listInfix sub.data s.data

/-- Go type assertion `v.(string)`: the string when `v` holds one, otherwise a
panic (the `Except.error` of the panic monad). -/
def assertString : Value → Except Unit String
  | .str s => .ok s
  | _ => .error ()

/-- The `continuous` constant of database.go. -/
def continuous : String := "continuous"

/-- The distinct error values `bulkDelete` and the stream openers can return;
`message` below gives each one's exact Go error string. -/
inductive GoError where
  | missingIdKey
  | missingRevKey
  | missingIdField
  | missingRevField
  | unsupportedDocType
  | acceptsOnlySlices
  | invalidArgumentType
  deriving Repr, DecidableEq

/-- The exact `errors.New` message of each error value in the source. -/
def GoError.message : GoError → String
  | .missingIdKey => "One of the maps, does not contain \"_id\" key"
  | .missingRevKey => "One of the maps, does not contain \"_rev\" key"
  | .missingIdField => "One of documents miss \"_id\" field or tag"
  | .missingRevField => "One of documents miss \"_rev\" field or tag"
  | .unsupportedDocType => "Unsupported document type"
  | .acceptsOnlySlices => "DeleteMany accepts only slices"
  | .invalidArgumentType =>
      "Invalid argument type, expected []map[string]interface\x7b\x7d or []interface\x7b\x7d"

/-- One field of a structurally-typed (struct) record: the value of its `json`
tag, as returned by `reflect.StructTag.Get("json")`, and the field's value. -/
structure Field where
  tag : String
  value : Value
  deriving Repr, DecidableEq

/-- The condition of the first `if` in the field-reading loop of `bulkDelete`
(database.go line 358): `dt.Field(k).Tag.Get("json") == "_id"`. -/
def isIdField (f : Field) : Bool := decide (f.tag = "_id")

/-- The condition of the second `if` (database.go line 361):
`strings.Contains(dt.Field(k).Tag.Get("json"), "_rev")`; in particular a tag
"_rev,omitempty" also matches. -/
def isRevField (f : Field) : Bool := goContains f.tag "_rev"

/-- One guarded store of the field-reading loop: when `cond` holds, assert
the field's value to a string (panicking on a non-string value) and store it
under `key`; when it does not hold, leave `temp` alone. -/
def stepTag (cond : Bool) (key : String) (v : Value) (temp : Doc) :
    Except Unit Doc :=
  if cond then
    match assertString v with
    | .error e => .error e
    | .ok s => .ok (mapInsert temp key (Value.str s))
  else .ok temp

/-- The field-reading loop of `bulkDelete` for one struct element
(database.go lines 356-364): for each field in declaration order, if its tag
equals "_id" store the asserted string under "_id", and if its tag contains
"_rev" store the asserted string under "_rev"; the accumulator `temp` starts
empty.  A failing `.(string)` assertion panics. -/
def fieldLoop : List Field → Doc → Except Unit Doc
  | [], temp => .ok temp
  | f :: rest, temp =>
      match stepTag (isIdField f) "_id" f.value temp with
      | .error e => .error e
      | .ok temp1 =>
          match stepTag (isRevField f) "_rev" f.value temp1 with
          | .error e => .error e
          | .ok temp2 => fieldLoop rest temp2

/-- Shaping of one struct element of a `[]interface\x7b\x7d` argument
(database.go lines 353-371): run the field loop and then require the "_id"
and "_rev" keys, in that order, before tagging the record `"_deleted" = true`.
The outer `Except Unit` is the panic monad; the inner value is either a
returned `GoError` or the shaped record. -/
def shapeStruct (fs : List Field) : Except Unit (Except GoError Doc) :=
  match fieldLoop fs [] with
  | .error e => .error e
  | .ok temp =>
      if (mapLookup temp "_id").isNone then .ok (.error .missingIdField)
      else if (mapLookup temp "_rev").isNone then .ok (.error .missingRevField)
      else .ok (.ok (mapInsert temp "_deleted" (Value.boolean true)))

/-- The loop of `bulkDelete` over a `[]interface\x7b\x7d` argument
(database.go lines 353-373), collecting shaped records in order and stopping
at the first error or panic. -/
def shapeIfaceDocs : List (List Field) → Except Unit (Except GoError (List Doc))
  | [] => .ok (.ok [])
  | fs :: rest =>
      match shapeStruct fs with
      | .error e => .error e
      | .ok (.error e) => .ok (.error e)
      | .ok (.ok d) =>
          match shapeIfaceDocs rest with
          | .error e => .error e
          | .ok (.error e) => .ok (.error e)
          | .ok (.ok ds) => .ok (.ok (d :: ds))

/-- The per-map mutation of `bulkDelete` (database.go line 348):
`m["_deleted"] = true`. -/
def shapeOne (m : Doc) : Doc := mapInsert m "_deleted" (Value.boolean true)

/-- The loop of `bulkDelete` over a `[]map[string]interface\x7b\x7d` argument
(database.go lines 342-351).  Each map must contain "_id" and then "_rev";
the loop mutates the caller's maps in place, so the second component is the
state of the input slice when the loop stops (fully shaped on success,
shaped up to the offending element on error). -/
def shapeMapRun : List Doc → (Except GoError (List Doc)) × List Doc
  | [] => (.ok [], [])
  | m :: rest =>
      if (mapLookup m "_id").isNone then (.error .missingIdKey, m :: rest)
      else if (mapLookup m "_rev").isNone then (.error .missingRevKey, m :: rest)
      else
        let m1 := shapeOne m
        match shapeMapRun rest with
        | (.ok ps, rs) => (.ok (m1 :: ps), m1 :: rs)
        | (.error e, rs) => (.error e, m1 :: rs)

/-- The dynamic `docs interface\x7b\x7d` argument of `bulkDelete`, as the
`reflect` switch in database.go lines 337-380 discriminates it: a slice of
maps, a slice of interface-wrapped struct records, a slice of any other
element kind, or not a slice at all. -/
inductive DocsArg where
  | mapSlice (ms : List Doc)
  | ifaceSlice (ss : List (List Field))
  | otherSlice
  | notSlice
  deriving Repr, DecidableEq

/-- The JSON body and header that `Database.Update` (database.go lines
286-303) builds before POSTing to `_bulk_docs`: the docs, `new_edits = false`
exactly when `updateRev` is false, `all_or_nothing = true` exactly when
`atomic` is true, and the `X-Couch-Full-Commit` header when `fullCommit`. -/
structure UpdateRequest where
  docs : List Doc
  new_edits : Option Bool
  all_or_nothing : Option Bool
  fullCommitHeader : Bool
  deriving Repr, DecidableEq

/-- Builds the `Update` request body from the flags, as database.go 287-299. -/
def updateRequest (docs : List Doc) (atomic updateRev fullCommit : Bool) :
    UpdateRequest :=
  ⟨docs, if !updateRev then some false else none,
    if atomic then some true else none, fullCommit⟩

/-- What `bulkDelete` did: returned an error before reaching `Update`, or
submitted a request body through `Update`. -/
inductive BulkOutcome where
  | errored (e : GoError)
  | submitted (req : UpdateRequest)
  deriving Repr, DecidableEq

/-- `Database.bulkDelete` (database.go lines 330-383): shape the argument,
then on success call `Update` with the same flags.  The deferred `recover`
turns any panic (a failed type assertion in the struct path) into the
`invalidArgumentType` error with a nil result.  The second component is the
state of the argument after the call (the map path mutates its maps). -/
def bulkDeleteRun (docs : DocsArg) (atomic updateRev fullCommit : Bool) :
    BulkOutcome × DocsArg :=
  match docs with
  | .mapSlice ms =>
      match shapeMapRun ms with
      | (.ok ps, rs) =>
          (.submitted (updateRequest ps atomic updateRev fullCommit), .mapSlice rs)
      | (.error e, rs) => (.errored e, .mapSlice rs)
  | .ifaceSlice ss =>
      match shapeIfaceDocs ss with
      | .error _ => (.errored .invalidArgumentType, .ifaceSlice ss)
      | .ok (.error e) => (.errored e, .ifaceSlice ss)
      | .ok (.ok ps) =>
          (.submitted (updateRequest ps atomic updateRev fullCommit), .ifaceSlice ss)
  | .otherSlice => (.errored .unsupportedDocType, .otherSlice)
  | .notSlice => (.errored .acceptsOnlySlices, .notSlice)

/-- `Database.DeleteMany` (database.go 394-396): `bulkDelete(docs, false, true, true)`. -/
def DeleteMany (docs : DocsArg) : BulkOutcome × DocsArg :=
  bulkDeleteRun docs false true true

/-- `Database.MustDeleteMany` (database.go 399-401): `bulkDelete(docs, true, true, true)`. -/
def MustDeleteMany (docs : DocsArg) : BulkOutcome × DocsArg :=
  bulkDeleteRun docs true true true

/-! ### The continuous event-streaming subsystem -/

/-- `DatabaseEvent` (database.go): one decoded line of the per-database
`_changes?feed=continuous` stream. -/
structure DatabaseEvent where
  changes : List (List (String × String))
  id : String
  seq : Int
  deleted : Bool
  deriving Repr, DecidableEq

/-- `ServerEvent` (server file): one decoded line of the server-scope
`_db_updates?feed=continuous` stream. -/
structure ServerEvent where
  name : String
  ok : Bool
  type : String
  deriving Repr, DecidableEq

/-- Result of one `reader.ReadBytes` call on the streaming response body:
a line, or a read error. -/
inductive ReadResult where
  | bytes (line : String)
  | failure
  deriving Repr, DecidableEq

/-- The panic value that stops the background loop: the explicit panics on
read and decode failure, or the runtime panic raised by sending on a channel
the caller has closed. -/
inductive PanicMsg where
  | readFailed
  | decodeFailed
  | sendOnClosedChannel
  deriving Repr, DecidableEq

/-- Exit status of the background loop body, as seen by the deferred
function: it panicked, it returned normally, or (when the modelled
environment is exhausted) it is still running, blocked on a read or send. -/
inductive LoopExit (Ev : Type) where
  | panicked (p : PanicMsg) (delivered : List Ev)
  | returned (delivered : List Ev)
  | running (delivered : List Ev)
  deriving Repr, DecidableEq

/-- The body-reading loop shared by `GetChangesChan` (database.go 467-481)
and `GetDBEventChan` (server file): forever, read one line (panicking on a
read error), unmarshal it (panicking on a decode error), and send the event
on the channel.  `decode` abstracts `json.Unmarshal` into the event type;
`reads` is the sequence of read results the connection yields; `accept` is
how many more sends the channel accepts before the caller closes it, a send
after closure being the runtime panic.  The `for` loop has no break or
return, so no case below builds `LoopExit.returned`. -/
def streamLoop (decode : String → Option Ev) :
    List ReadResult → Nat → LoopExit Ev
  | [], _ => .running []
  | .failure :: _, _ => .panicked .readFailed []
  | .bytes s :: rest, accept =>
      match decode s with
      | none => .panicked .decodeFailed []
      | some ev =>
          match accept with
          | 0 => .panicked .sendOnClosedChannel []
          | n + 1 =>
              match streamLoop decode rest n with
              | .panicked p ds => .panicked p (ev :: ds)
              | .returned ds => .returned (ev :: ds)
              | .running ds => .running (ev :: ds)

/-- Observable outcome of the whole background goroutine: the events it
delivered, how many times it closed the response body, whether a panic
escaped it (which would crash the process), and whether it finished. -/
structure TaskOutcome (Ev : Type) where
  delivered : List Ev
  bodyCloses : Nat
  crashed : Bool
  finished : Bool
  deriving Repr, DecidableEq

/-- The deferred `recover` wrapper both goroutines install: when the loop
panics, `recover()` is non-nil, so `resp.Body.Close()` runs (once) and the
panic stops there; if the loop returned normally, `recover()` is nil and the
deferred function closes nothing. -/
def runWithRecover {Ev : Type} : LoopExit Ev → TaskOutcome Ev
  | .panicked _ ds => ⟨ds, 1, false, true⟩
  | .returned ds => ⟨ds, 0, false, true⟩
  | .running ds => ⟨ds, 0, false, false⟩

/-- The background goroutine launched by `GetChangesChan` (database.go
455-481), as a function of its environment. -/
def changesTask (decode : String → Option DatabaseEvent)
    (reads : List ReadResult) (accept : Nat) : TaskOutcome DatabaseEvent :=
  runWithRecover (streamLoop decode reads accept)

/-- The background goroutine launched by `GetDBEventChan` (server file), as a
function of its environment. -/
def dbEventTask (decode : String → Option ServerEvent)
    (reads : List ReadResult) (accept : Nat) : TaskOutcome ServerEvent :=
  runWithRecover (streamLoop decode reads accept)

/-! ### The option-validating entry points -/

/-- Rendering of a dynamic value by `fmt.Sprintf("%v", v)` in a query
string. -/
def valueFmt : Value → String
  | .str s => s
  | .boolean b => if b then "true" else "false"
  | .num n => toString n

/-- Go `strings.Trim(s, "&")`: removes leading and trailing ampersands. -/
def trimAmp (s : String) : String :=
  String.mk (((s.data.dropWhile (fun c => c = '&')).reverse.dropWhile
    (fun c => c = '&')).reverse)

/-- `queryURL` (database.go 99-105): joins path segments with "/" and trims a
trailing slash. -/
def queryURL (path : List String) : String :=
  String.mk ((path.foldl (fun u item => u ++ "/" ++ item) "").data.reverse.dropWhile
    (fun c => c = '/')).reverse

/-- The query fragment built by `GetAllChanges` and `GetDBEvent`:
`fmt.Sprintf("&%s=%v", k, v)` appended per entry. -/
def buildQueryAmp (options : Doc) : String :=
  options.foldl (fun q p => q ++ "&" ++ p.1 ++ "=" ++ valueFmt p.2) ""

/-- The query fragment built by `GetChangesChan`:
`fmt.Sprintf("%s=%v", k, v)` appended per entry (no separator). -/
def buildQueryNoAmp (options : Doc) : String :=
  options.foldl (fun q p => q ++ p.1 ++ "=" ++ valueFmt p.2) ""

/-- How a call's pre-network phase ended: a configuration error returned
before any request, the HTTP request being issued with the given path, or an
unrecovered panic from a `.(string)` assertion on a non-string option. -/
inductive CallOutcome where
  | configError (msg : String)
  | requested (url : String)
  | panicked
  deriving Repr, DecidableEq

/-- `Database.GetAllChanges` (database.go 404-421) up to the `conn.request`
call: reject `feed=continuous` with an error, otherwise build the `_changes`
query and issue the GET. -/
def getAllChanges (dbName : String) (options : Doc) : CallOutcome :=
  let proceed :=
    let query := buildQueryAmp options
    let query :=
      if options.length > 0 then "_changes?" ++ trimAmp query else "_changes"
    CallOutcome.requested (queryURL [dbName, query])
  match mapLookup options "feed" with
  | some v =>
      match assertString v with
      | .error _ => .panicked
      | .ok s =>
          if s = continuous then
            .configError "This method does not support listening for continuous events, use GetChangesChan instead"
          else proceed
  | none => proceed

/-- `Database.GetChangesChan` (database.go 429-454) up to the `conn.request`
call: reject a non-continuous `feed` entry with an error; for
`feed=continuous`, delete the entry from the caller's map; then build the
continuous query and issue the GET.  The second component is the state of the
caller-supplied options map when the phase ends. -/
def getChangesChanPre (dbName : String) (options : Doc) : CallOutcome × Doc :=
  let proceed := fun (opts : Doc) =>
    let query := buildQueryNoAmp opts
    let query :=
      if opts.length > 0 then "_changes?feed=continuous" ++ trimAmp query
      else "_changes?feed=continuous"
    CallOutcome.requested (queryURL [dbName, query])
  match mapLookup options "feed" with
  | some v =>
      match assertString v with
      | .error _ => (.panicked, options)
      | .ok s =>
          if s ≠ continuous then
            (.configError "This method supports only listening for continuous events, use GetAllChanges instead", options)
          else
            let options1 := mapDelete options "feed"
            (proceed options1, options1)
  | none => (proceed options, options)

/-- `Server.GetDBEvent` (server file) up to the `conn.request` call: builds
the `_db_updates` query from the options and issues the GET; it performs no
validation of the `feed` entry. -/
def getDBEvent (options : Doc) : CallOutcome :=
  let url := buildQueryAmp options
  let url :=
    if url.length > 0 then "/_db_updates?" ++ trimAmp url else "/_db_updates"
  .requested url

/-- `Server.GetDBEventChan` (server file) up to the `conn.request` call: it
takes no options and always requests the continuous feed. -/
def getDBEventChan : CallOutcome :=
  .requested "/_db_updates?feed=continuous"

/-! ### Map lemmas -/

theorem mapLookup_mapInsert_self (m : Doc) (k : String) (v : Value) :
    mapLookup (mapInsert m k v) k = some v := by
  induction m with
  | nil => simp [mapInsert, mapLookup]
  | cons p rest ih =>
      obtain ⟨k1, v1⟩ := p
      by_cases h : k1 = k
      · simp [mapInsert, h, mapLookup]
      · simp [mapInsert, h, mapLookup, ih]

theorem mapLookup_mapInsert_ne (m : Doc) {k k2 : String} (v : Value)
    (h : k2 ≠ k) : mapLookup (mapInsert m k v) k2 = mapLookup m k2 := by
  have hne : ¬ k = k2 := fun hh => h hh.symm
  induction m with
  | nil => simp [mapInsert, mapLookup, hne]
  | cons p rest ih =>
      obtain ⟨k1, v1⟩ := p
      by_cases hk : k1 = k
      · have hne1 : ¬ k1 = k2 := fun hh => h (hh ▸ hk)
        simp [mapInsert, hk, mapLookup, hne, hne1]
      · by_cases hk2 : k1 = k2
        · simp [mapInsert, hk, mapLookup, hk2, h]
        · simp [mapInsert, hk, mapLookup, hk2, ih]

theorem mapInsert_mapInsert_same (m : Doc) (k : String) (v : Value) :
    mapInsert (mapInsert m k v) k v = mapInsert m k v := by
  induction m with
  | nil => simp [mapInsert]
  | cons p rest ih =>
      obtain ⟨k1, v1⟩ := p
      by_cases h : k1 = k
      · simp [mapInsert, h]
      · simp [mapInsert, h, ih]

theorem mapLookup_mapDelete_self (m : Doc) (k : String) :
    mapLookup (mapDelete m k) k = none := by
  induction m with
  | nil => simp [mapDelete, mapLookup]
  | cons p rest ih =>
      obtain ⟨k1, v1⟩ := p
      by_cases h : k1 = k
      · simp [mapDelete, h, ih]
      · simp [mapDelete, h, mapLookup, ih]

theorem mapLookup_mapDelete_ne (m : Doc) {k k2 : String} (h : k2 ≠ k) :
    mapLookup (mapDelete m k) k2 = mapLookup m k2 := by
  induction m with
  | nil => simp [mapDelete, mapLookup]
  | cons p rest ih =>
      obtain ⟨k1, v1⟩ := p
      by_cases hk : k1 = k
      · have hne1 : ¬ k1 = k2 := fun hh => h (hh ▸ hk)
        have hne2 : ¬ k = k2 := fun hh => h hh.symm
        simp [mapDelete, hk, mapLookup, hne1, hne2, ih]
      · by_cases hk2 : k1 = k2
        · simp [mapDelete, hk, mapLookup, hk2, h]
        · simp [mapDelete, hk, mapLookup, hk2, ih]

/-! ### Lemmas about the map-slice shaping path -/

theorem mapLookup_shapeOne_id (m : Doc) :
    mapLookup (shapeOne m) "_id" = mapLookup m "_id" :=
  mapLookup_mapInsert_ne m _ (by decide)

theorem mapLookup_shapeOne_rev (m : Doc) :
    mapLookup (shapeOne m) "_rev" = mapLookup m "_rev" :=
  mapLookup_mapInsert_ne m _ (by decide)

theorem mapLookup_shapeOne_deleted (m : Doc) :
    mapLookup (shapeOne m) "_deleted" = some (Value.boolean true) :=
  mapLookup_mapInsert_self m _ _

theorem shapeOne_idem (m : Doc) : shapeOne (shapeOne m) = shapeOne m :=
  mapInsert_mapInsert_same m _ _

theorem shapeMapRun_ok (ms : List Doc)
    (h : ∀ m ∈ ms, (mapLookup m "_id").isSome ∧ (mapLookup m "_rev").isSome) :
    shapeMapRun ms = (.ok (ms.map shapeOne), ms.map shapeOne) := by
  induction ms with
  | nil => simp [shapeMapRun]
  | cons m rest ih =>
      obtain ⟨h1, h2⟩ := h m (by simp)
      obtain ⟨v1, hv1⟩ := Option.isSome_iff_exists.mp h1
      obtain ⟨v2, hv2⟩ := Option.isSome_iff_exists.mp h2
      have ih2 := ih (fun m2 hm2 => h m2 (by simp [hm2]))
      simp [shapeMapRun, hv1, hv2, ih2]

theorem shapeMapRun_ok_inv (ms : List Doc) (ps rs : List Doc)
    (h : shapeMapRun ms = (.ok ps, rs)) :
    ps = ms.map shapeOne ∧ rs = ps ∧
      ∀ m ∈ ms, (mapLookup m "_id").isSome ∧ (mapLookup m "_rev").isSome := by
  induction ms generalizing ps rs with
  | nil =>
      simp only [shapeMapRun, Prod.mk.injEq] at h
      obtain ⟨h1, h2⟩ := h
      cases h1
      simp [← h2]
  | cons m rest ih =>
      rcases hv1 : mapLookup m "_id" with _ | v1
      · simp [shapeMapRun, hv1] at h
      · rcases hv2 : mapLookup m "_rev" with _ | v2
        · simp [shapeMapRun, hv1, hv2] at h
        · rcases hrec : shapeMapRun rest with ⟨r, rs2⟩
          cases r with
          | error e => simp [shapeMapRun, hv1, hv2, hrec] at h
          | ok ps2 =>
              have hstep : shapeMapRun (m :: rest)
                  = (.ok (shapeOne m :: ps2), shapeOne m :: rs2) := by
                simp [shapeMapRun, hv1, hv2, hrec]
              rw [hstep] at h
              have hps := congrArg Prod.fst h
              have hrs := congrArg Prod.snd h
              simp only [Except.ok.injEq] at hps hrs
              obtain ⟨hp2, hr2, hall⟩ := ih ps2 rs2 hrec
              refine ⟨?_, ?_, ?_⟩
              · rw [← hps, hp2]
                simp
              · rw [← hrs, ← hps, hr2]
              · intro m2 hm2
                rcases List.mem_cons.mp hm2 with hm2 | hm2
                · subst hm2
                  exact ⟨by simp [hv1], by simp [hv2]⟩
                · exact hall m2 hm2

theorem shapeMapRun_missing (ms : List Doc)
    (h : ∃ m ∈ ms, mapLookup m "_id" = none ∨ mapLookup m "_rev" = none) :
    ∃ e rs, shapeMapRun ms = (.error e, rs) ∧
      ((e = .missingIdKey ∧ ∃ m ∈ ms, mapLookup m "_id" = none) ∨
       (e = .missingRevKey ∧ ∃ m ∈ ms, mapLookup m "_rev" = none)) := by
  induction ms with
  | nil => simp at h
  | cons m rest ih =>
      rcases hv1 : mapLookup m "_id" with _ | v1
      · exact ⟨.missingIdKey, m :: rest, by simp [shapeMapRun, hv1],
          Or.inl ⟨rfl, m, by simp, hv1⟩⟩
      · rcases hv2 : mapLookup m "_rev" with _ | v2
        · exact ⟨.missingRevKey, m :: rest, by simp [shapeMapRun, hv1, hv2],
            Or.inr ⟨rfl, m, by simp, hv2⟩⟩
        · obtain ⟨m0, hm0, hc⟩ := h
          rcases List.mem_cons.mp hm0 with hm0 | hm0
          · subst hm0
            rcases hc with hc | hc
            · rw [hv1] at hc
              cases hc
            · rw [hv2] at hc
              cases hc
          · obtain ⟨e, rs2, hrun, hdisj⟩ := ih ⟨m0, hm0, hc⟩
            refine ⟨e, shapeOne m :: rs2, by simp [shapeMapRun, hv1, hv2, hrun], ?_⟩
            rcases hdisj with ⟨he, m1, hm1, hl⟩ | ⟨he, m1, hm1, hl⟩
            · exact Or.inl ⟨he, m1, List.mem_cons_of_mem m hm1, hl⟩
            · exact Or.inr ⟨he, m1, List.mem_cons_of_mem m hm1, hl⟩

theorem bulkDeleteRun_submitted_inv (docs docs1 : DocsArg) (a u f : Bool)
    (req : UpdateRequest)
    (h : bulkDeleteRun docs a u f = (.submitted req, docs1)) :
    ∃ ps, req = updateRequest ps a u f ∧
      ∀ a2 u2 f2, bulkDeleteRun docs a2 u2 f2
        = (.submitted (updateRequest ps a2 u2 f2), docs1) := by
  cases docs with
  | mapSlice ms =>
      rcases hrec : shapeMapRun ms with ⟨r, rs⟩
      cases r with
      | error e => simp [bulkDeleteRun, hrec] at h
      | ok ps =>
          have hstep : bulkDeleteRun (.mapSlice ms) a u f
              = (.submitted (updateRequest ps a u f), .mapSlice rs) := by
            simp [bulkDeleteRun, hrec]
          rw [hstep] at h
          have h1 := congrArg Prod.fst h
          have h2 := congrArg Prod.snd h
          simp only [BulkOutcome.submitted.injEq] at h1
          simp only at h2
          subst h2
          exact ⟨ps, h1.symm, fun a2 u2 f2 => by simp [bulkDeleteRun, hrec]⟩
  | ifaceSlice ss =>
      rcases hrec : shapeIfaceDocs ss with e | r
      · simp [bulkDeleteRun, hrec] at h
      · cases r with
        | error e => simp [bulkDeleteRun, hrec] at h
        | ok ps =>
            have hstep : bulkDeleteRun (.ifaceSlice ss) a u f
                = (.submitted (updateRequest ps a u f), .ifaceSlice ss) := by
              simp [bulkDeleteRun, hrec]
            rw [hstep] at h
            have h1 := congrArg Prod.fst h
            have h2 := congrArg Prod.snd h
            simp only [BulkOutcome.submitted.injEq] at h1
            simp only at h2
            subst h2
            exact ⟨ps, h1.symm, fun a2 u2 f2 => by simp [bulkDeleteRun, hrec]⟩
  | otherSlice => simp [bulkDeleteRun] at h
  | notSlice => simp [bulkDeleteRun] at h

/-! ### Claim theorems for the bulk shaper -/

/-- C4: for every slice of maps in which every element contains both "_id"
and "_rev", the delete shaper produces exactly one output record per input
element, in input order, with "_deleted" set to `true` and the "_id" and
"_rev" values preserved verbatim. -/
theorem C4_shape_valid_maps (ms : List Doc)
    (h : ∀ m ∈ ms, (mapLookup m "_id").isSome ∧ (mapLookup m "_rev").isSome) :
    ∃ out, shapeMapRun ms = (.ok out, out) ∧ out.length = ms.length ∧
      ∀ i (hi : i < ms.length) (ho : i < out.length),
        mapLookup out[i] "_id" = mapLookup ms[i] "_id" ∧
        mapLookup out[i] "_rev" = mapLookup ms[i] "_rev" ∧
        mapLookup out[i] "_deleted" = some (Value.boolean true) := by
  refine ⟨ms.map shapeOne, shapeMapRun_ok ms h, by simp, ?_⟩
  intro i hi ho
  have hmap : (ms.map shapeOne)[i] = shapeOne ms[i] := by
    simp
  rw [hmap]
  exact ⟨mapLookup_shapeOne_id _, mapLookup_shapeOne_rev _,
    mapLookup_shapeOne_deleted _⟩

/-- Closed instance of `C4_shape_valid_maps` at a concrete one-element
slice. -/
theorem C4_shape_valid_maps_witness :
    0 < ([[("_id", Value.str "x"), ("_rev", Value.str "2")]] : List Doc).length ∧
    ∃ out, shapeMapRun [[("_id", Value.str "x"), ("_rev", Value.str "2")]]
      = (.ok out, out) := by
  obtain ⟨out, h1, -⟩ :=
    C4_shape_valid_maps [[("_id", Value.str "x"), ("_rev", Value.str "2")]]
      (by decide)
  exact ⟨by decide, out, h1⟩

/-- C5: if some element of a slice of maps lacks "_id" or lacks "_rev", the
delete shaper returns (for either flag setting, hence for both `DeleteMany`
and `MustDeleteMany`) an error whose message names the missing key, and the
outcome is `errored`, not `submitted`: `Update` is never reached. -/
theorem C5_missing_key_error (ms : List Doc) (a u f : Bool)
    (h : ∃ m ∈ ms, mapLookup m "_id" = none ∨ mapLookup m "_rev" = none) :
    ∃ e, (bulkDeleteRun (.mapSlice ms) a u f).fst = .errored e ∧
      ((e = .missingIdKey ∧
          GoError.message e = "One of the maps, does not contain \"_id\" key" ∧
          ∃ m ∈ ms, mapLookup m "_id" = none) ∨
       (e = .missingRevKey ∧
          GoError.message e = "One of the maps, does not contain \"_rev\" key" ∧
          ∃ m ∈ ms, mapLookup m "_rev" = none)) := by
  obtain ⟨e, rs, hrun, hdisj⟩ := shapeMapRun_missing ms h
  refine ⟨e, by simp [bulkDeleteRun, hrun], ?_⟩
  rcases hdisj with ⟨he, hw⟩ | ⟨he, hw⟩
  · subst he
    exact Or.inl ⟨rfl, rfl, hw⟩
  · subst he
    exact Or.inr ⟨rfl, rfl, hw⟩

/-- Closed instance of `C5_missing_key_error` at a map missing "_rev". -/
theorem C5_missing_key_error_witness :
    ∃ e, (bulkDeleteRun (.mapSlice [[("_id", Value.str "x")]]) false true true).fst
      = .errored e := by
  obtain ⟨e, h1, -⟩ :=
    C5_missing_key_error [[("_id", Value.str "x")]] false true true
      ⟨[("_id", Value.str "x")], by simp, Or.inr (by decide)⟩
  exact ⟨e, h1⟩

/-- C8: a slice whose element kind is neither map nor interface fails with
the "Unsupported document type" error, a non-slice argument fails with the
distinct "DeleteMany accepts only slices" error, and in both cases the
outcome is `errored` (no `Update` call), whatever the flags. -/
theorem C8_distinct_error_kinds (a u f : Bool) :
    bulkDeleteRun .otherSlice a u f = (.errored .unsupportedDocType, .otherSlice) ∧
    bulkDeleteRun .notSlice a u f = (.errored .acceptsOnlySlices, .notSlice) ∧
    GoError.unsupportedDocType ≠ GoError.acceptsOnlySlices ∧
    GoError.message .unsupportedDocType = "Unsupported document type" ∧
    GoError.message .acceptsOnlySlices = "DeleteMany accepts only slices" :=
  ⟨rfl, rfl, by simp, rfl, rfl⟩

/-- C3 counterexample: on a valid one-element input, `DeleteMany` submits a
request body whose `new_edits` field is ABSENT (`none`), not `false`: the
delete path passes `updateRev = true` to `Update`, so the claim's
"new_edits = false in the request body" is false on the code. -/
theorem C3_bulk_flags_counterexample :
    (DeleteMany (DocsArg.mapSlice [[("_id", Value.str "a"), ("_rev", Value.str "1")]])).fst
      = BulkOutcome.submitted
          ⟨[[("_id", Value.str "a"), ("_rev", Value.str "1"),
             ("_deleted", Value.boolean true)]], none, none, true⟩ ∧
    (⟨[[("_id", Value.str "a"), ("_rev", Value.str "1"),
        ("_deleted", Value.boolean true)]], none, none, true⟩ : UpdateRequest).new_edits
      ≠ some false := by
  exact ⟨by decide, by simp⟩

/-- C3 amended: for every collection that passes delete-path validation, the
shaped records are submitted through `Update` with the atomicity flag as
requested (`all_or_nothing = true` for the Must variant, absent otherwise)
and with `new_edits` left ABSENT from the request body (the delete path
passes `updateRev = true`), the full-commit header being set in both. -/
theorem C3_bulk_flags_amended (docs docs1 : DocsArg) (req : UpdateRequest)
    (h : DeleteMany docs = (.submitted req, docs1)) :
    req.new_edits = none ∧ req.all_or_nothing = none ∧
    req.fullCommitHeader = true ∧
    MustDeleteMany docs = (.submitted ⟨req.docs, none, some true, true⟩, docs1) := by
  obtain ⟨ps, hreq, hall⟩ := bulkDeleteRun_submitted_inv docs docs1 false true true req h
  subst hreq
  exact ⟨rfl, rfl, rfl, hall true true true⟩

/-- Closed instance of `C3_bulk_flags_amended` at a concrete input. -/
theorem C3_bulk_flags_amended_witness :
    (⟨[[("_id", Value.str "a"), ("_rev", Value.str "1"),
        ("_deleted", Value.boolean true)]], none, none, true⟩ : UpdateRequest).new_edits = none ∧
    MustDeleteMany (DocsArg.mapSlice [[("_id", Value.str "a"), ("_rev", Value.str "1")]])
      = (.submitted ⟨[[("_id", Value.str "a"), ("_rev", Value.str "1"),
          ("_deleted", Value.boolean true)]], none, some true, true⟩,
         DocsArg.mapSlice [[("_id", Value.str "a"), ("_rev", Value.str "1"),
          ("_deleted", Value.boolean true)]]) := by
  have h := C3_bulk_flags_amended
    (DocsArg.mapSlice [[("_id", Value.str "a"), ("_rev", Value.str "1")]])
    (DocsArg.mapSlice [[("_id", Value.str "a"), ("_rev", Value.str "1"),
      ("_deleted", Value.boolean true)]])
    ⟨[[("_id", Value.str "a"), ("_rev", Value.str "1"),
       ("_deleted", Value.boolean true)]], none, none, true⟩
    (by decide)
  exact ⟨h.1, h.2.2.2⟩

/-! ### Claim theorems for the stream entry points -/

/-- C2 counterexample: the server-scope one-shot call `GetDBEvent`, given an
options map whose "feed" entry requests a continuous feed, performs no feed
validation: it issues the HTTP request instead of returning a configuration
error. -/
theorem C2_feed_validation_counterexample :
    getDBEvent [("feed", Value.str continuous)]
      = CallOutcome.requested "/_db_updates?feed=continuous" := by
  decide

/-- C2 amended: the database-scope calls validate as the claim states —
`GetAllChanges` rejects `feed=continuous` and `GetChangesChan` rejects a
non-continuous "feed" entry, each returning its descriptive configuration
error with no request issued — but the server-scope one-shot `GetDBEvent`
performs no feed validation (it always issues a request), and the
server-scope channel call `GetDBEventChan` accepts no options at all. -/
theorem C2_feed_validation_amended (dbName : String) (options : Doc) (s : String) :
    (mapLookup options "feed" = some (Value.str continuous) →
       getAllChanges dbName options
         = .configError "This method does not support listening for continuous events, use GetChangesChan instead") ∧
    (mapLookup options "feed" = some (Value.str s) → s ≠ continuous →
       (getChangesChanPre dbName options).fst
         = .configError "This method supports only listening for continuous events, use GetAllChanges instead") ∧
    (∃ u, getDBEvent options = .requested u) ∧
    getDBEventChan = .requested "/_db_updates?feed=continuous" := by
  refine ⟨?_, ?_, ⟨_, rfl⟩, rfl⟩
  · intro h
    simp [getAllChanges, h, assertString]
  · intro h hs
    simp [getChangesChanPre, h, assertString, hs]

/-- Closed instance of `C2_feed_validation_amended`: both database-scope
rejections at concrete inputs. -/
theorem C2_feed_validation_amended_witness :
    getAllChanges "db" [("feed", Value.str "continuous")]
      = .configError "This method does not support listening for continuous events, use GetChangesChan instead" ∧
    (getChangesChanPre "db" [("feed", Value.str "longpoll")]).fst
      = .configError "This method supports only listening for continuous events, use GetAllChanges instead" := by
  refine ⟨(C2_feed_validation_amended "db" [("feed", Value.str "continuous")] "x").1 (by decide),
    (C2_feed_validation_amended "db" [("feed", Value.str "longpoll")] "longpoll").2.1
      (by decide) (by decide)⟩

/-- C10: when the caller-supplied options map has "feed" bound to the
continuous value, `GetChangesChan` deletes that entry from the caller's map —
a caller-visible mutation — and leaves every other entry unchanged. -/
theorem C10_feed_deleted (dbName : String) (options : Doc)
    (h : mapLookup options "feed" = some (Value.str continuous)) :
    (getChangesChanPre dbName options).snd = mapDelete options "feed" ∧
    mapLookup (getChangesChanPre dbName options).snd "feed" = none ∧
    ∀ k, k ≠ "feed" →
      mapLookup (getChangesChanPre dbName options).snd k = mapLookup options k := by
  have hsnd : (getChangesChanPre dbName options).snd = mapDelete options "feed" := by
    simp [getChangesChanPre, h, assertString]
  refine ⟨hsnd, ?_, ?_⟩
  · rw [hsnd]
    exact mapLookup_mapDelete_self options "feed"
  · intro k hk
    rw [hsnd]
    exact mapLookup_mapDelete_ne options hk

/-- Closed instance of `C10_feed_deleted` at a two-entry options map. -/
theorem C10_feed_deleted_witness :
    (getChangesChanPre "db"
        [("feed", Value.str "continuous"), ("since", Value.num 5)]).snd
      = [("since", Value.num 5)] ∧
    mapLookup (getChangesChanPre "db"
        [("feed", Value.str "continuous"), ("since", Value.num 5)]).snd "feed"
      = none ∧
    mapLookup (getChangesChanPre "db"
        [("feed", Value.str "continuous"), ("since", Value.num 5)]).snd "since"
      = some (Value.num 5) := by
  have h := C10_feed_deleted "db"
    [("feed", Value.str "continuous"), ("since", Value.num 5)] (by decide)
  exact ⟨by rw [h.1]; decide, h.2.1, by rw [h.2.2 "since" (by decide)]; decide⟩

/-! ### The background-task claim -/

theorem streamLoop_ne_returned {Ev : Type} (decode : String → Option Ev) :
    ∀ (reads : List ReadResult) (accept : Nat) (ds : List Ev),
      streamLoop decode reads accept ≠ .returned ds := by
  intro reads
  induction reads with
  | nil =>
      intro accept ds h
      simp [streamLoop] at h
  | cons r rest ih =>
      intro accept ds h
      cases r with
      | failure => simp [streamLoop] at h
      | bytes s =>
          rcases hdec : decode s with _ | ev
          · simp [streamLoop, hdec] at h
          · cases accept with
            | zero => simp [streamLoop, hdec] at h
            | succ n =>
                rcases hrec : streamLoop decode rest n with ⟨p, ds2⟩ | ds2 | ds2
                · simp [streamLoop, hdec, hrec] at h
                · exact ih n ds2 hrec
                · simp [streamLoop, hdec, hrec] at h

theorem runWithRecover_spec {Ev : Type} (e : LoopExit Ev)
    (hne : ∀ ds, e ≠ .returned ds)
    (hf : (runWithRecover e).finished = true) :
    (runWithRecover e).bodyCloses = 1 ∧ (runWithRecover e).crashed = false := by
  cases e with
  | panicked p ds => exact ⟨rfl, rfl⟩
  | returned ds => exact absurd rfl (hne ds)
  | running ds => simp [runWithRecover] at hf

/-- C1: whichever way a background stream-reading task started by
`GetChangesChan` or `GetDBEventChan` terminates — the caller closing the
channel (a send panicking), a read failure, or a decode failure — the
dedicated connection's response body is closed exactly once, and the panic
never escapes the goroutine (the process does not crash).  When the task has
not terminated the body is not closed yet, so "exactly once" is per
terminated stream. -/
theorem C1_stream_resource_release
    (decodeD : String → Option DatabaseEvent) (decodeS : String → Option ServerEvent)
    (reads : List ReadResult) (accept : Nat) :
    ((changesTask decodeD reads accept).finished = true →
       (changesTask decodeD reads accept).bodyCloses = 1 ∧
       (changesTask decodeD reads accept).crashed = false) ∧
    ((dbEventTask decodeS reads accept).finished = true →
       (dbEventTask decodeS reads accept).bodyCloses = 1 ∧
       (dbEventTask decodeS reads accept).crashed = false) :=
  ⟨fun hf => runWithRecover_spec _
      (fun ds => streamLoop_ne_returned decodeD reads accept ds) hf,
   fun hf => runWithRecover_spec _
      (fun ds => streamLoop_ne_returned decodeS reads accept ds) hf⟩

/-- Closed instance of `C1_stream_resource_release`: a read failure on the
first line, for both stream kinds. -/
theorem C1_stream_resource_release_witness :
    (changesTask (fun _ => none) [ReadResult.failure] 0).finished = true ∧
    (changesTask (fun _ => none) [ReadResult.failure] 0).bodyCloses = 1 ∧
    (changesTask (fun _ => none) [ReadResult.failure] 0).crashed = false ∧
    (dbEventTask (fun _ => none) [ReadResult.failure] 0).finished = true ∧
    (dbEventTask (fun _ => none) [ReadResult.failure] 0).bodyCloses = 1 ∧
    (dbEventTask (fun _ => none) [ReadResult.failure] 0).crashed = false := by
  have h := C1_stream_resource_release (fun _ => none) (fun _ => none)
    [ReadResult.failure] 0
  exact ⟨rfl, (h.1 rfl).1, (h.1 rfl).2, rfl, (h.2 rfl).1, (h.2 rfl).2⟩

/-! ### Struct-path lemmas: tag discovery and panic conversion -/

/-- The final value stored under a key by a loop that, for each field
matching `p` in order, overwrites the accumulator with that field's value. -/
def tagVal (p : Field → Bool) : List Field → Option Value → Option Value
  | [], acc => acc
  | f :: rest, acc => tagVal p rest (if p f then some f.value else acc)

theorem tagVal_filter_nil (p : Field → Bool) :
    ∀ (fs : List Field) (acc : Option Value),
      fs.filter p = [] → tagVal p fs acc = acc := by
  intro fs
  induction fs with
  | nil => intro acc _; rfl
  | cons f rest ih =>
      intro acc h
      cases hp : p f with
      | false =>
          rw [List.filter_cons, if_neg (by simp [hp])] at h
          simp [tagVal, hp]
          exact ih acc h
      | true =>
          rw [List.filter_cons, if_pos (by simp [hp])] at h
          exact absurd h (List.cons_ne_nil _ _)

theorem tagVal_filter_singleton (p : Field → Bool) :
    ∀ (fs : List Field) (acc : Option Value) (f0 : Field),
      fs.filter p = [f0] → tagVal p fs acc = some f0.value := by
  intro fs
  induction fs with
  | nil => intro acc f0 h; simp at h
  | cons f rest ih =>
      intro acc f0 h
      cases hp : p f with
      | true =>
          rw [List.filter_cons, if_pos (by simp [hp])] at h
          injection h with hf hrest
          subst hf
          simp [tagVal, hp]
          exact tagVal_filter_nil p rest _ hrest
      | false =>
          rw [List.filter_cons, if_neg (by simp [hp])] at h
          simp [tagVal, hp]
          exact ih acc f0 h

theorem stepTag_ok (cond : Bool) (key : String) (v : Value) (temp : Doc)
    (h : cond = true → ∃ s, v = Value.str s) :
    ∃ t2, stepTag cond key v temp = .ok t2 := by
  cases cond with
  | false => exact ⟨temp, rfl⟩
  | true =>
      obtain ⟨s, hs⟩ := h rfl
      exact ⟨mapInsert temp key (Value.str s), by simp [stepTag, hs, assertString]⟩

theorem fieldLoop_ok_of_textual :
    ∀ (fs : List Field) (temp : Doc),
      (∀ f ∈ fs, (isIdField f = true ∨ isRevField f = true) →
        ∃ s, f.value = Value.str s) →
      ∃ t, fieldLoop fs temp = .ok t := by
  intro fs
  induction fs with
  | nil => intro temp _; exact ⟨temp, rfl⟩
  | cons f rest ih =>
      intro temp h
      obtain ⟨t1, h1⟩ := stepTag_ok (isIdField f) "_id" f.value temp
        (fun hid => h f (by simp) (Or.inl hid))
      obtain ⟨t2, h2⟩ := stepTag_ok (isRevField f) "_rev" f.value t1
        (fun hrev => h f (by simp) (Or.inr hrev))
      obtain ⟨t, ht⟩ := ih t2 (fun g hg hc => h g (by simp [hg]) hc)
      exact ⟨t, by simp [fieldLoop, h1, h2, ht]⟩

theorem goContains_id_rev : goContains "_id" "_rev" = false := by decide

theorem fieldLoop_lookups :
    ∀ (fs : List Field) (temp t : Doc), fieldLoop fs temp = .ok t →
      mapLookup t "_id" = tagVal isIdField fs (mapLookup temp "_id") ∧
      mapLookup t "_rev" = tagVal isRevField fs (mapLookup temp "_rev") := by
  intro fs
  induction fs with
  | nil =>
      intro temp t h
      injection h with h
      subst h
      exact ⟨rfl, rfl⟩
  | cons f rest ih =>
      intro temp t h
      cases hid : isIdField f with
      | true =>
          have htag : f.tag = "_id" := of_decide_eq_true hid
          have hrev : isRevField f = false := by
            rw [isRevField, htag]
            exact goContains_id_rev
          cases hv : f.value with
          | str s =>
              have h1 : stepTag (isIdField f) "_id" f.value temp
                  = .ok (mapInsert temp "_id" (Value.str s)) := by
                simp [stepTag, hid, hv, assertString]
              have h2 : stepTag (isRevField f) "_rev" f.value
                  (mapInsert temp "_id" (Value.str s))
                  = .ok (mapInsert temp "_id" (Value.str s)) := by
                simp [stepTag, hrev]
              simp only [fieldLoop, h1, h2] at h
              obtain ⟨ihId, ihRev⟩ := ih _ t h
              constructor
              · rw [ihId, mapLookup_mapInsert_self]
                simp [tagVal, hid, hv]
              · rw [ihRev, mapLookup_mapInsert_ne _ _ (by decide)]
                simp [tagVal, hrev]
          | boolean b =>
              exfalso
              simp [fieldLoop, stepTag, hid, hv, assertString] at h
          | num n =>
              exfalso
              simp [fieldLoop, stepTag, hid, hv, assertString] at h
      | false =>
          have h1 : stepTag (isIdField f) "_id" f.value temp = .ok temp := by
            simp [stepTag, hid]
          cases hrev : isRevField f with
          | true =>
              cases hv : f.value with
              | str s =>
                  have h2 : stepTag (isRevField f) "_rev" f.value temp
                      = .ok (mapInsert temp "_rev" (Value.str s)) := by
                    simp [stepTag, hrev, hv, assertString]
                  simp only [fieldLoop, h1, h2] at h
                  obtain ⟨ihId, ihRev⟩ := ih _ t h
                  constructor
                  · rw [ihId, mapLookup_mapInsert_ne _ _ (by decide)]
                    simp [tagVal, hid]
                  · rw [ihRev, mapLookup_mapInsert_self]
                    simp [tagVal, hrev, hv]
              | boolean b =>
                  exfalso
                  simp [fieldLoop, stepTag, hid, hrev, hv, assertString] at h
              | num n =>
                  exfalso
                  simp [fieldLoop, stepTag, hid, hrev, hv, assertString] at h
          | false =>
              have h2 : stepTag (isRevField f) "_rev" f.value temp = .ok temp := by
                simp [stepTag, hrev]
              simp only [fieldLoop, h1, h2] at h
              obtain ⟨ihId, ihRev⟩ := ih _ t h
              exact ⟨by rw [ihId]; simp [tagVal, hid],
                by rw [ihRev]; simp [tagVal, hrev]⟩

/-- C6: the delete shaper locates the identity field of a struct record as
the one whose tag equals "_id" and the revision field as one whose tag
contains "_rev" (so "_rev,omitempty" matches), whatever the declaration
order (the hypotheses fix the matching fields, not their position); when no
field matches the identity criterion the shaper returns the missing-"_id"
error, and when none matches the revision criterion it returns the
missing-"_rev" error. -/
theorem C6_tag_discovery
    (fs gs hs : List Field) (idv revv hidv rtag : String)
    (h1 : fs.filter isIdField = [⟨"_id", Value.str idv⟩])
    (h2 : fs.filter isRevField = [⟨rtag, Value.str revv⟩])
    (h3 : gs.filter isIdField = [])
    (h4 : ∀ f ∈ gs, isRevField f = true → ∃ s, f.value = Value.str s)
    (h5 : hs.filter isIdField = [⟨"_id", Value.str hidv⟩])
    (h6 : hs.filter isRevField = []) :
    (∃ d, shapeStruct fs = .ok (.ok d) ∧
       mapLookup d "_id" = some (Value.str idv) ∧
       mapLookup d "_rev" = some (Value.str revv) ∧
       mapLookup d "_deleted" = some (Value.boolean true)) ∧
    shapeStruct gs = .ok (.error .missingIdField) ∧
    shapeStruct hs = .ok (.error .missingRevField) := by
  refine ⟨?_, ?_, ?_⟩
  · have htex : ∀ f ∈ fs, (isIdField f = true ∨ isRevField f = true) →
        ∃ s, f.value = Value.str s := by
      intro f hf hc
      rcases hc with hc | hc
      · have := List.mem_filter.mpr ⟨hf, hc⟩
        rw [h1] at this
        simp at this
        exact ⟨idv, by rw [this]⟩
      · have := List.mem_filter.mpr ⟨hf, hc⟩
        rw [h2] at this
        simp at this
        exact ⟨revv, by rw [this]⟩
    obtain ⟨t, ht⟩ := fieldLoop_ok_of_textual fs [] htex
    obtain ⟨lid, lrev⟩ := fieldLoop_lookups fs [] t ht
    have hid : mapLookup t "_id" = some (Value.str idv) := by
      rw [lid, tagVal_filter_singleton isIdField fs _ _ h1]
    have hrv : mapLookup t "_rev" = some (Value.str revv) := by
      rw [lrev, tagVal_filter_singleton isRevField fs _ _ h2]
    refine ⟨mapInsert t "_deleted" (Value.boolean true), ?_, ?_, ?_, ?_⟩
    · simp [shapeStruct, ht, hid, hrv]
    · rw [mapLookup_mapInsert_ne _ _ (by decide)]
      exact hid
    · rw [mapLookup_mapInsert_ne _ _ (by decide)]
      exact hrv
    · exact mapLookup_mapInsert_self t _ _
  · have htex : ∀ f ∈ gs, (isIdField f = true ∨ isRevField f = true) →
        ∃ s, f.value = Value.str s := by
      intro f hf hc
      rcases hc with hc | hc
      · have := List.mem_filter.mpr ⟨hf, hc⟩
        rw [h3] at this
        simp at this
      · exact h4 f hf hc
    obtain ⟨t, ht⟩ := fieldLoop_ok_of_textual gs [] htex
    obtain ⟨lid, -⟩ := fieldLoop_lookups gs [] t ht
    have hid : mapLookup t "_id" = none := by
      rw [lid]
      exact tagVal_filter_nil isIdField gs _ h3
    simp [shapeStruct, ht, hid]
  · have htex : ∀ f ∈ hs, (isIdField f = true ∨ isRevField f = true) →
        ∃ s, f.value = Value.str s := by
      intro f hf hc
      rcases hc with hc | hc
      · have := List.mem_filter.mpr ⟨hf, hc⟩
        rw [h5] at this
        simp at this
        exact ⟨hidv, by rw [this]⟩
      · have := List.mem_filter.mpr ⟨hf, hc⟩
        rw [h6] at this
        simp at this
    obtain ⟨t, ht⟩ := fieldLoop_ok_of_textual hs [] htex
    obtain ⟨lid, lrev⟩ := fieldLoop_lookups hs [] t ht
    have hid : mapLookup t "_id" = some (Value.str hidv) := by
      rw [lid, tagVal_filter_singleton isIdField hs _ _ h5]
    have hrv : mapLookup t "_rev" = none := by
      rw [lrev]
      exact tagVal_filter_nil isRevField hs _ h6
    simp [shapeStruct, ht, hid, hrv]

/-- Closed instance of `C6_tag_discovery`: the revision field is declared
before the identity field and carries an "omitempty"-suffixed tag. -/
theorem C6_tag_discovery_witness :
    (∃ d, shapeStruct [⟨"other", Value.num 3⟩, ⟨"_rev,omitempty", Value.str "9"⟩,
        ⟨"_id", Value.str "w"⟩] = .ok (.ok d) ∧
       mapLookup d "_id" = some (Value.str "w") ∧
       mapLookup d "_rev" = some (Value.str "9") ∧
       mapLookup d "_deleted" = some (Value.boolean true)) ∧
    shapeStruct [⟨"x", Value.str "1"⟩] = .ok (.error .missingIdField) ∧
    shapeStruct [⟨"_id", Value.str "w"⟩] = .ok (.error .missingRevField) :=
  C6_tag_discovery
    [⟨"other", Value.num 3⟩, ⟨"_rev,omitempty", Value.str "9"⟩, ⟨"_id", Value.str "w"⟩]
    [⟨"x", Value.str "1"⟩] [⟨"_id", Value.str "w"⟩]
    "w" "9" "w" "_rev,omitempty"
    (by decide) (by decide) (by decide)
    (by
      intro f hf hc
      have hf2 : f = ⟨"x", Value.str "1"⟩ := by simpa using hf
      subst hf2
      exact ⟨"1", rfl⟩)
    (by decide) (by decide)

theorem fieldLoop_panic :
    ∀ (pre : List Field) (tg : String) (v : Value) (post : List Field) (temp : Doc),
      (isIdField ⟨tg, v⟩ = true ∨ isRevField ⟨tg, v⟩ = true) →
      (∀ s, v ≠ Value.str s) →
      (∀ g ∈ pre, (isIdField g = true ∨ isRevField g = true) →
        ∃ s, g.value = Value.str s) →
      fieldLoop (pre ++ ⟨tg, v⟩ :: post) temp = .error () := by
  intro pre
  induction pre with
  | nil =>
      intro tg v post temp hc hnv _
      have hassert : assertString v = .error () := by
        cases v with
        | str s => exact absurd rfl (hnv s)
        | boolean b => rfl
        | num n => rfl
      cases hid : isIdField ⟨tg, v⟩ with
      | true => simp [fieldLoop, stepTag, hid, hassert]
      | false =>
          have hrev : isRevField ⟨tg, v⟩ = true := by
            rcases hc with hc | hc
            · rw [hid] at hc
              cases hc
            · exact hc
          simp [fieldLoop, stepTag, hid, hrev, hassert]
  | cons g pre2 ih =>
      intro tg v post temp hc hnv htex
      obtain ⟨t1, hs1⟩ := stepTag_ok (isIdField g) "_id" g.value temp
        (fun hid => htex g (by simp) (Or.inl hid))
      obtain ⟨t2, hs2⟩ := stepTag_ok (isRevField g) "_rev" g.value t1
        (fun hrev => htex g (by simp) (Or.inr hrev))
      have ih2 := ih tg v post t2 hc hnv (fun g2 hg2 => htex g2 (by simp [hg2]))
      simp [fieldLoop, hs1, hs2, ih2]

/-- C7: when a struct field discovered as identity or revision does not hold
a textual value, the `.(string)` assertion panics, the deferred `recover` in
`bulkDelete` catches it, and the caller receives the structured
invalid-argument error with a nil result — the process does not crash and the
field is not skipped silently. -/
theorem C7_assertion_failure_recovered
    (pre post : List Field) (tg : String) (v : Value)
    (rest : List (List Field)) (a u f : Bool)
    (h1 : isIdField ⟨tg, v⟩ = true ∨ isRevField ⟨tg, v⟩ = true)
    (h2 : ∀ s, v ≠ Value.str s)
    (h3 : ∀ g ∈ pre, (isIdField g = true ∨ isRevField g = true) →
      ∃ s, g.value = Value.str s) :
    bulkDeleteRun (.ifaceSlice ((pre ++ ⟨tg, v⟩ :: post) :: rest)) a u f
      = (.errored .invalidArgumentType,
         .ifaceSlice ((pre ++ ⟨tg, v⟩ :: post) :: rest)) ∧
    GoError.message .invalidArgumentType
      = "Invalid argument type, expected []map[string]interface\x7b\x7d or []interface\x7b\x7d" := by
  have hp := fieldLoop_panic pre tg v post [] h1 h2 h3
  have hss : shapeStruct (pre ++ ⟨tg, v⟩ :: post) = .error () := by
    simp [shapeStruct, hp]
  have hi : shapeIfaceDocs ((pre ++ ⟨tg, v⟩ :: post) :: rest) = .error () := by
    simp [shapeIfaceDocs, hss]
  exact ⟨by simp [bulkDeleteRun, hi], rfl⟩

/-- Closed instance of `C7_assertion_failure_recovered`: an "_id"-tagged
boolean field after an unmatched field. -/
theorem C7_assertion_failure_recovered_witness :
    bulkDeleteRun (.ifaceSlice [[⟨"a", Value.num 1⟩, ⟨"_id", Value.boolean true⟩]])
        false true true
      = (.errored .invalidArgumentType,
         .ifaceSlice [[⟨"a", Value.num 1⟩, ⟨"_id", Value.boolean true⟩]]) :=
  (C7_assertion_failure_recovered [⟨"a", Value.num 1⟩] [] "_id" (Value.boolean true)
    [] false true true
    (Or.inl (by decide))
    (fun s h => Value.noConfusion h)
    (by
      intro g hg hc
      have hg2 : g = ⟨"a", Value.num 1⟩ := by simpa using hg
      subst hg2
      rcases hc with hc | hc
      · exact absurd hc (by decide)
      · exact absurd hc (by decide))).1

/-! ### Idempotence of the shaping transform -/

/-- C9: if a run of the delete shaper submitted a payload and left the
argument in state `docs1`, then running the shaper again on `docs1` submits
the structurally identical payload and leaves the argument unchanged: the
only mutation (tagging the caller's maps with "_deleted") is idempotent. -/
theorem C9_shape_idempotent (docs docs1 : DocsArg) (a u f : Bool)
    (req : UpdateRequest)
    (h : bulkDeleteRun docs a u f = (.submitted req, docs1)) :
    bulkDeleteRun docs1 a u f = (.submitted req, docs1) := by
  cases docs with
  | mapSlice ms =>
      rcases hrec : shapeMapRun ms with ⟨r, rs⟩
      cases r with
      | error e => simp [bulkDeleteRun, hrec] at h
      | ok ps =>
          obtain ⟨hp, hr, hv⟩ := shapeMapRun_ok_inv ms ps rs hrec
          have hstep : bulkDeleteRun (.mapSlice ms) a u f
              = (.submitted (updateRequest ps a u f), .mapSlice rs) := by
            simp [bulkDeleteRun, hrec]
          rw [hstep] at h
          have hfst := congrArg Prod.fst h
          have hsnd := congrArg Prod.snd h
          simp only [BulkOutcome.submitted.injEq] at hfst
          simp only at hsnd
          subst hsnd
          subst hfst
          have hv2 : ∀ m ∈ ps, (mapLookup m "_id").isSome ∧
              (mapLookup m "_rev").isSome := by
            intro m hm
            rw [hp] at hm
            obtain ⟨m0, hm0, hmeq⟩ := List.mem_map.mp hm
            subst hmeq
            obtain ⟨ha, hb⟩ := hv m0 hm0
            exact ⟨by rw [mapLookup_shapeOne_id]; exact ha,
              by rw [mapLookup_shapeOne_rev]; exact hb⟩
          have hps := shapeMapRun_ok ps hv2
          have hfix : ps.map shapeOne = ps := by
            rw [hp, List.map_map]
            apply List.map_congr_left
            intro m _
            simp [Function.comp, shapeOne_idem]
          rw [hr]
          simp [bulkDeleteRun, hps, hfix]
  | ifaceSlice ss =>
      rcases hrec : shapeIfaceDocs ss with e | r
      · simp [bulkDeleteRun, hrec] at h
      · cases r with
        | error e => simp [bulkDeleteRun, hrec] at h
        | ok ps =>
            have hstep : bulkDeleteRun (.ifaceSlice ss) a u f
                = (.submitted (updateRequest ps a u f), .ifaceSlice ss) := by
              simp [bulkDeleteRun, hrec]
            rw [hstep] at h
            have hsnd := congrArg Prod.snd h
            simp only at hsnd
            subst hsnd
            exact hstep.trans h
  | otherSlice => simp [bulkDeleteRun] at h
  | notSlice => simp [bulkDeleteRun] at h

/-- Closed instance of `C9_shape_idempotent`: rerunning the shaper on the
mutated one-map slice reproduces the first run's payload and state. -/
theorem C9_shape_idempotent_witness :
    bulkDeleteRun (.mapSlice [[("_id", Value.str "a"), ("_rev", Value.str "1"),
        ("_deleted", Value.boolean true)]]) false true true
      = (.submitted ⟨[[("_id", Value.str "a"), ("_rev", Value.str "1"),
          ("_deleted", Value.boolean true)]], none, none, true⟩,
         .mapSlice [[("_id", Value.str "a"), ("_rev", Value.str "1"),
          ("_deleted", Value.boolean true)]]) :=
  C9_shape_idempotent
    (.mapSlice [[("_id", Value.str "a"), ("_rev", Value.str "1")]]) _ false true true _
    (by decide)

end Gocouch
